import Mathlib

/-!
Verification of the JamScribe core against its specification.

The development shallowly embeds the three core pieces of the repository:
the persisted upload-retry queue with exponential backoff
(`retryPendingUploads` in `jamscribe_module.tsx`), the MIDI recorder with
its per-device inactivity state machine and tick-delta encoder
(`MidiRecorderImpl` in `services/recorder.ts`), and the upload dispatcher
(`uploadFileInternal` in `services/upload_service.ts`).  Machine integers
are modelled as `Nat`/`Int`; `performance.now()` timestamps as `ℚ`;
fallible operations return `Option`/`Except`; network and serialization
outcomes are oracle parameters.
-/

namespace JamScribe

/-! ## Retry queue (`jamscribe_module.tsx`) -/

/-- The `PendingUpload` record persisted in the retry queue. -/
structure PendingUpload where
  id : String
  fileName : String
  filePath : String
  contentType : String
  attempts : Nat
  lastAttemptTime : Nat
  error : Option String
deriving DecidableEq

/-- `const MAX_ATTEMPTS = 10`. -/
def MAX_ATTEMPTS : Nat := 10

/-- `backoffMs = Math.pow(2, upload.attempts - 1) * 60 * 1000`. -/
def backoffMs (attempts : Nat) : Nat := 2 ^ (attempts - 1) * 60 * 1000

/-- `nextAttemptTime = upload.lastAttemptTime + backoffMs`. -/
def nextAttemptTime (u : PendingUpload) : Nat := u.lastAttemptTime + backoffMs u.attempts

/-- The per-entry state update applied on a failed retry:
`u.id === upload.id ? {...u, attempts: u.attempts + 1, lastAttemptTime: now,
error: message} : u`. -/
def failUpdate (now : Nat) (err : String) (uploadId : String) (u : PendingUpload) :
    PendingUpload :=
  if u.id = uploadId then
    { u with attempts := u.attempts + 1, lastAttemptTime := now, error := some err }
  else u

/-- One iteration of the `for (const upload of uploads)` loop in
`retryPendingUploads`, acting on the current queue state `queue` for the
snapshot entry `upload`.  The upload outcome is the oracle `ok`
(`none` = the `await uploadFileFromPath` call succeeds, `some err` = it
throws with message `err`).  The second component records whether
`uploadFileFromPath` was invoked for this entry. -/
def sweepEntryFull (now : Nat) (uploaderUrl : String) (ok : PendingUpload → Option String)
    (queue : List PendingUpload) (upload : PendingUpload) : List PendingUpload × Bool :=
  if now < nextAttemptTime upload ∨ MAX_ATTEMPTS ≤ upload.attempts then
    (queue, false)
  else if uploaderUrl = "" then
    (queue, false)
  else
    match ok upload with
    | none =>
      (queue.filter (fun u => decide (u.id ≠ upload.id)), true)
    | some err =>
      let updated := queue.map (failUpdate now err upload.id)
      if MAX_ATTEMPTS ≤ upload.attempts + 1 then
        (updated.filter (fun u => decide (u.id ≠ upload.id)), true)
      else
        (updated, true)

/-- The queue component of one loop iteration. -/
def sweepEntry (now : Nat) (uploaderUrl : String) (ok : PendingUpload → Option String)
    (queue : List PendingUpload) (upload : PendingUpload) : List PendingUpload :=
  (sweepEntryFull now uploaderUrl ok queue upload).1

/-- `retryPendingUploads`: iterate the loop over a snapshot of the queue,
threading the queue state through each iteration.  The second component
collects the ids of the entries for which an upload was dispatched. -/
def retryPendingUploadsFull (now : Nat) (uploaderUrl : String)
    (ok : PendingUpload → Option String) (uploads : List PendingUpload) :
    List PendingUpload × List String :=
  uploads.foldl
    (fun acc upload =>
      let r := sweepEntryFull now uploaderUrl ok acc.1 upload
      (r.1, if r.2 then acc.2 ++ [upload.id] else acc.2))
    (uploads, [])

/-- The resulting queue of one sweep. -/
def retryPendingUploads (now : Nat) (uploaderUrl : String)
    (ok : PendingUpload → Option String) (uploads : List PendingUpload) :
    List PendingUpload :=
  (retryPendingUploadsFull now uploaderUrl ok uploads).1

end JamScribe


namespace JamScribe

/-! ### Case equations for one sweep iteration -/

theorem sweepEntryFull_skip (now : Nat) (url : String) (ok : PendingUpload → Option String)
    (queue : List PendingUpload) (upload : PendingUpload)
    (h : now < nextAttemptTime upload ∨ MAX_ATTEMPTS ≤ upload.attempts) :
    sweepEntryFull now url ok queue upload = (queue, false) := by
  simp [sweepEntryFull, h]

theorem sweepEntryFull_noUrl (now : Nat) (ok : PendingUpload → Option String)
    (queue : List PendingUpload) (upload : PendingUpload)
    (h : ¬(now < nextAttemptTime upload ∨ MAX_ATTEMPTS ≤ upload.attempts)) :
    sweepEntryFull now "" ok queue upload = (queue, false) := by
  simp [sweepEntryFull, h]

theorem sweepEntryFull_success (now : Nat) (url : String) (ok : PendingUpload → Option String)
    (queue : List PendingUpload) (upload : PendingUpload)
    (h : ¬(now < nextAttemptTime upload ∨ MAX_ATTEMPTS ≤ upload.attempts))
    (hurl : url ≠ "") (hok : ok upload = none) :
    sweepEntryFull now url ok queue upload =
      (queue.filter (fun u => decide (u.id ≠ upload.id)), true) := by
  simp [sweepEntryFull, h, hurl, hok]

theorem sweepEntryFull_fail_keep (now : Nat) (url : String) (ok : PendingUpload → Option String)
    (queue : List PendingUpload) (upload : PendingUpload) (err : String)
    (h : ¬(now < nextAttemptTime upload ∨ MAX_ATTEMPTS ≤ upload.attempts))
    (hurl : url ≠ "") (hok : ok upload = some err)
    (hatt : ¬ MAX_ATTEMPTS ≤ upload.attempts + 1) :
    sweepEntryFull now url ok queue upload =
      (queue.map (failUpdate now err upload.id), true) := by
  simp [sweepEntryFull, h, hurl, hok, hatt]

theorem sweepEntryFull_fail_evict (now : Nat) (url : String) (ok : PendingUpload → Option String)
    (queue : List PendingUpload) (upload : PendingUpload) (err : String)
    (h : ¬(now < nextAttemptTime upload ∨ MAX_ATTEMPTS ≤ upload.attempts))
    (hurl : url ≠ "") (hok : ok upload = some err)
    (hatt : MAX_ATTEMPTS ≤ upload.attempts + 1) :
    sweepEntryFull now url ok queue upload =
      ((queue.map (failUpdate now err upload.id)).filter (fun u => decide (u.id ≠ upload.id)),
        true) := by
  simp [sweepEntryFull, h, hurl, hok, hatt]

theorem failUpdate_id (now : Nat) (err uploadId : String) (u : PendingUpload) :
    (failUpdate now err uploadId u).id = u.id := by
  unfold failUpdate
  split <;> simp_all

end JamScribe

namespace JamScribe

/-! ### Membership lemmas for the sweep -/

theorem mem_sweepEntry_of_ne (now : Nat) (url : String) (ok : PendingUpload → Option String)
    (queue : List PendingUpload) (upload w : PendingUpload)
    (hne : w.id ≠ upload.id) (hw : w ∈ queue) : w ∈ sweepEntry now url ok queue upload := by
  unfold sweepEntry
  by_cases h : now < nextAttemptTime upload ∨ MAX_ATTEMPTS ≤ upload.attempts
  · rw [sweepEntryFull_skip now url ok queue upload h]
    exact hw
  · by_cases hurl : url = ""
    · subst hurl
      rw [sweepEntryFull_noUrl now ok queue upload h]
      exact hw
    · cases hok : ok upload with
      | none =>
        rw [sweepEntryFull_success now url ok queue upload h hurl hok]
        simp only [List.mem_filter, decide_eq_true_eq]
        exact ⟨hw, hne⟩
      | some err =>
        have hmem : w ∈ queue.map (failUpdate now err upload.id) := by
          have h2 := List.mem_map_of_mem (failUpdate now err upload.id) hw
          rwa [show failUpdate now err upload.id w = w by simp [failUpdate, hne]] at h2
        by_cases hatt : MAX_ATTEMPTS ≤ upload.attempts + 1
        · rw [sweepEntryFull_fail_evict now url ok queue upload err h hurl hok hatt]
          simp only [List.mem_filter, decide_eq_true_eq]
          exact ⟨hmem, hne⟩
        · rw [sweepEntryFull_fail_keep now url ok queue upload err h hurl hok hatt]
          exact hmem

theorem id_mem_of_mem_sweepEntry (now : Nat) (url : String) (ok : PendingUpload → Option String)
    (queue : List PendingUpload) (upload v : PendingUpload)
    (hv : v ∈ sweepEntry now url ok queue upload) : ∃ w ∈ queue, v.id = w.id := by
  unfold sweepEntry at hv
  by_cases h : now < nextAttemptTime upload ∨ MAX_ATTEMPTS ≤ upload.attempts
  · rw [sweepEntryFull_skip now url ok queue upload h] at hv
    exact ⟨v, hv, rfl⟩
  · by_cases hurl : url = ""
    · subst hurl
      rw [sweepEntryFull_noUrl now ok queue upload h] at hv
      exact ⟨v, hv, rfl⟩
    · cases hok : ok upload with
      | none =>
        rw [sweepEntryFull_success now url ok queue upload h hurl hok] at hv
        simp only [List.mem_filter, decide_eq_true_eq] at hv
        exact ⟨v, hv.1, rfl⟩
      | some err =>
        have hmap : ∀ z : PendingUpload, z ∈ queue.map (failUpdate now err upload.id) →
            ∃ w ∈ queue, z.id = w.id := by
          intro z hz
          rcases List.mem_map.mp hz with ⟨w, hwq, hwz⟩
          exact ⟨w, hwq, hwz ▸ failUpdate_id now err upload.id w⟩
        by_cases hatt : MAX_ATTEMPTS ≤ upload.attempts + 1
        · rw [sweepEntryFull_fail_evict now url ok queue upload err h hurl hok hatt] at hv
          simp only [List.mem_filter, decide_eq_true_eq] at hv
          exact hmap v hv.1
        · rw [sweepEntryFull_fail_keep now url ok queue upload err h hurl hok hatt] at hv
          exact hmap v hv

end JamScribe

namespace JamScribe

/-! ### Fold lemmas for the whole sweep -/

theorem retryFull_fst_foldl (now : Nat) (url : String) (ok : PendingUpload → Option String)
    (l : List PendingUpload) :
    ∀ (q : List PendingUpload) (outs : List String),
      (l.foldl
        (fun acc upload =>
          let r := sweepEntryFull now url ok acc.1 upload
          (r.1, if r.2 then acc.2 ++ [upload.id] else acc.2))
        (q, outs)).1 = l.foldl (sweepEntry now url ok) q := by
  induction l with
  | nil => intro q outs; rfl
  | cons e l ih =>
    intro q outs
    simp only [List.foldl_cons]
    exact ih _ _

theorem sweepEntryFull_snd (now : Nat) (url : String) (ok : PendingUpload → Option String)
    (queue : List PendingUpload) (upload : PendingUpload) :
    (sweepEntryFull now url ok queue upload).2 = true ↔
      (nextAttemptTime upload ≤ now ∧ upload.attempts < MAX_ATTEMPTS ∧ url ≠ "") := by
  by_cases h : now < nextAttemptTime upload ∨ MAX_ATTEMPTS ≤ upload.attempts
  · rw [sweepEntryFull_skip now url ok queue upload h]
    simp only [Bool.false_eq_true, false_iff, not_and]
    intro h1 h2
    rcases h with h | h
    · exact absurd h1 (by omega)
    · exact absurd h2 (by omega)
  · by_cases hurl : url = ""
    · subst hurl
      rw [sweepEntryFull_noUrl now ok queue upload h]
      simp
    · push_neg at h
      cases hok : ok upload with
      | none =>
        rw [sweepEntryFull_success now url ok queue upload (by omega) hurl hok]
        simpa using ⟨h.1, h.2, hurl⟩
      | some err =>
        by_cases hatt : MAX_ATTEMPTS ≤ upload.attempts + 1
        · rw [sweepEntryFull_fail_evict now url ok queue upload err (by omega) hurl hok hatt]
          simpa using ⟨h.1, h.2, hurl⟩
        · rw [sweepEntryFull_fail_keep now url ok queue upload err (by omega) hurl hok hatt]
          simpa using ⟨h.1, h.2, hurl⟩

theorem retryFull_snd_foldl (now : Nat) (url : String) (ok : PendingUpload → Option String)
    (l : List PendingUpload) :
    ∀ (q : List PendingUpload) (outs : List String),
      (l.foldl
        (fun acc upload =>
          let r := sweepEntryFull now url ok acc.1 upload
          (r.1, if r.2 then acc.2 ++ [upload.id] else acc.2))
        (q, outs)).2 =
      outs ++ (l.filter (fun u =>
        decide (nextAttemptTime u ≤ now ∧ u.attempts < MAX_ATTEMPTS ∧ url ≠ ""))).map
          (fun u => u.id) := by
  induction l with
  | nil => intro q outs; simp
  | cons e l ih =>
    intro q outs
    simp only [List.foldl_cons]
    by_cases he : nextAttemptTime e ≤ now ∧ e.attempts < MAX_ATTEMPTS ∧ url ≠ ""
    · have h2 : (sweepEntryFull now url ok q e).2 = true :=
        (sweepEntryFull_snd now url ok q e).mpr he
      rw [List.filter_cons_of_pos (by simpa using he)]
      simp only [h2, if_true, List.map_cons]
      rw [ih _ _]
      simp
    · have h2 : (sweepEntryFull now url ok q e).2 = false := by
        rcases Bool.eq_false_or_eq_true (sweepEntryFull now url ok q e).2 with ht | hf
        · exact absurd ((sweepEntryFull_snd now url ok q e).mp ht) he
        · exact hf
      rw [List.filter_cons_of_neg (by simpa using he)]
      simp only [h2, Bool.false_eq_true, if_false]
      exact ih _ _

theorem mem_foldl_sweep_of_ne (now : Nat) (url : String) (ok : PendingUpload → Option String)
    (w : PendingUpload) (l : List PendingUpload) (hl : ∀ e ∈ l, e.id ≠ w.id) :
    ∀ q, w ∈ q → w ∈ l.foldl (sweepEntry now url ok) q := by
  induction l with
  | nil => intro q hq; exact hq
  | cons e l ih =>
    intro q hq
    simp only [List.foldl_cons]
    exact ih (fun x hx => hl x (List.mem_cons_of_mem e hx))
      _ (mem_sweepEntry_of_ne now url ok q e w (fun hcontra =>
          hl e (List.mem_cons_self e l) hcontra.symm) hq)

theorem id_absent_foldl_sweep (now : Nat) (url : String) (ok : PendingUpload → Option String)
    (i : String) (l : List PendingUpload) :
    ∀ q, (∀ v ∈ q, v.id ≠ i) → ∀ v ∈ l.foldl (sweepEntry now url ok) q, v.id ≠ i := by
  induction l with
  | nil => intro q hq; exact hq
  | cons e l ih =>
    intro q hq
    simp only [List.foldl_cons]
    refine ih _ ?_
    intro v hv
    rcases id_mem_of_mem_sweepEntry now url ok q e v hv with ⟨w, hwq, hwid⟩
    exact hwid ▸ hq w hwq

end JamScribe

namespace JamScribe

theorem mem_foldl_sweep_untouched (now : Nat) (url : String)
    (ok : PendingUpload → Option String) (u : PendingUpload)
    (hu : now < nextAttemptTime u ∨ MAX_ATTEMPTS ≤ u.attempts)
    (l : List PendingUpload) (hl : ∀ e ∈ l, e.id = u.id → e = u) :
    ∀ q, u ∈ q → u ∈ l.foldl (sweepEntry now url ok) q := by
  induction l with
  | nil => intro q hq; exact hq
  | cons e l ih =>
    intro q hq
    simp only [List.foldl_cons]
    refine ih (fun x hx => hl x (List.mem_cons_of_mem e hx)) _ ?_
    by_cases hei : e.id = u.id
    · have heu : e = u := hl e (List.mem_cons_self e l) hei
      subst heu
      unfold sweepEntry
      rw [sweepEntryFull_skip now url ok q e hu]
      exact hq
    · exact mem_sweepEntry_of_ne now url ok q e u (fun hc => hei hc.symm) hq

/-- C1: for a pending-upload entry with `attempts = k`, a sweep at time `now`
dispatches a retry if and only if `now ≥ lastAttemptTime + 2^(k-1)` minutes
and `k < 10` (given an uploader endpoint is configured); an ineligible entry
survives the sweep with every field unchanged and is not retried. -/
theorem c1_sweep_eligibility (now : Nat) (url : String) (ok : PendingUpload → Option String)
    (uploads : List PendingUpload) (u : PendingUpload)
    (hurl : url ≠ "") (hnd : (uploads.map PendingUpload.id).Nodup)
    (hmem : u ∈ uploads) (hk : 1 ≤ u.attempts) :
    (u.id ∈ (retryPendingUploadsFull now url ok uploads).2 ↔
      (u.lastAttemptTime + 2 ^ (u.attempts - 1) * 60 * 1000 ≤ now ∧ u.attempts < 10))
    ∧ (¬(u.lastAttemptTime + 2 ^ (u.attempts - 1) * 60 * 1000 ≤ now ∧ u.attempts < 10) →
        u ∈ retryPendingUploads now url ok uploads ∧
          u.id ∉ (retryPendingUploadsFull now url ok uploads).2) := by
  have hnx : nextAttemptTime u = u.lastAttemptTime + 2 ^ (u.attempts - 1) * 60 * 1000 := rfl
  have hM : MAX_ATTEMPTS = 10 := rfl
  have hsnd : (retryPendingUploadsFull now url ok uploads).2 =
      (uploads.filter (fun v =>
        decide (nextAttemptTime v ≤ now ∧ v.attempts < MAX_ATTEMPTS ∧ url ≠ ""))).map
        (fun v => v.id) := by
    unfold retryPendingUploadsFull
    rw [retryFull_snd_foldl now url ok uploads uploads []]
    simp
  have hattempt_iff : u.id ∈ (retryPendingUploadsFull now url ok uploads).2 ↔
      (u.lastAttemptTime + 2 ^ (u.attempts - 1) * 60 * 1000 ≤ now ∧ u.attempts < 10) := by
    rw [hsnd]
    constructor
    · intro hin
      rcases List.mem_map.mp hin with ⟨v, hvf, hvid⟩
      have hvu : v ∈ uploads ∧ _ := List.mem_filter.mp hvf
      have hveq : v = u := List.inj_on_of_nodup_map hnd hvu.1 hmem hvid
      subst hveq
      have := of_decide_eq_true hvu.2
      rw [hnx] at this
      exact ⟨this.1, by omega⟩
    · intro helig
      refine List.mem_map.mpr ⟨u, List.mem_filter.mpr ⟨hmem, ?_⟩, rfl⟩
      refine decide_eq_true ⟨?_, by omega, hurl⟩
      rw [hnx]
      exact helig.1
  refine ⟨hattempt_iff, fun hinelig => ⟨?_, fun hin => hinelig (hattempt_iff.mp hin)⟩⟩
  have hcase : now < nextAttemptTime u ∨ MAX_ATTEMPTS ≤ u.attempts := by
    rw [hnx, hM]
    omega
  unfold retryPendingUploads retryPendingUploadsFull
  rw [retryFull_fst_foldl now url ok uploads uploads []]
  refine mem_foldl_sweep_untouched now url ok u hcase uploads ?_ uploads hmem
  intro e he heid
  exact List.inj_on_of_nodup_map hnd he hmem heid

/-- Entry used by the concrete sweep witnesses: one pending upload with
`attempts = 1`, `lastAttemptTime = 0`. -/
def sampleUpload : PendingUpload :=
  { id := "a1", fileName := "f.mid", filePath := "./midi_files/f.mid",
    contentType := "audio/midi", attempts := 1, lastAttemptTime := 0, error := none }

/-- Witness for C1 at a concrete ineligible entry (`attempts = 1`,
`now = 59999 < 60000`). -/
theorem c1_sweep_eligibility_witness :
    ("http://u" ≠ "" ∧ ([sampleUpload].map PendingUpload.id).Nodup ∧
      sampleUpload ∈ [sampleUpload] ∧ 1 ≤ sampleUpload.attempts) ∧
    ((sampleUpload.id ∈
        (retryPendingUploadsFull 59999 "http://u" (fun _ => none) [sampleUpload]).2 ↔
      (sampleUpload.lastAttemptTime + 2 ^ (sampleUpload.attempts - 1) * 60 * 1000 ≤ 59999 ∧
        sampleUpload.attempts < 10))
    ∧ (¬(sampleUpload.lastAttemptTime + 2 ^ (sampleUpload.attempts - 1) * 60 * 1000 ≤ 59999 ∧
          sampleUpload.attempts < 10) →
        sampleUpload ∈ retryPendingUploads 59999 "http://u" (fun _ => none) [sampleUpload] ∧
          sampleUpload.id ∉
            (retryPendingUploadsFull 59999 "http://u" (fun _ => none) [sampleUpload]).2)) :=
  ⟨⟨by decide, by decide, by decide, by decide⟩,
    c1_sweep_eligibility 59999 "http://u" (fun _ => none) [sampleUpload] sampleUpload
      (by decide) (by decide) (by decide) (by decide)⟩

end JamScribe

namespace JamScribe

/-- C2: when an eligible entry's retry fails, the sweep replaces it with a
copy whose `attempts` is incremented, `lastAttemptTime` is `now` and whose
error message is the new failure; if the incremented `attempts` reaches 10
the entry is instead removed, and no entry with its id survives the sweep. -/
theorem c2_retry_failure_update (now : Nat) (url : String)
    (ok : PendingUpload → Option String) (uploads : List PendingUpload)
    (u : PendingUpload) (err : String)
    (hurl : url ≠ "") (hnd : (uploads.map PendingUpload.id).Nodup) (hmem : u ∈ uploads)
    (helig : u.lastAttemptTime + 2 ^ (u.attempts - 1) * 60 * 1000 ≤ now ∧ u.attempts < 10)
    (hfail : ok u = some err) :
    (u.attempts + 1 < 10 →
      { u with attempts := u.attempts + 1, lastAttemptTime := now, error := some err } ∈
        retryPendingUploads now url ok uploads)
    ∧ (10 ≤ u.attempts + 1 →
        ∀ v ∈ retryPendingUploads now url ok uploads, v.id ≠ u.id) := by
  have hnx : nextAttemptTime u = u.lastAttemptTime + 2 ^ (u.attempts - 1) * 60 * 1000 := rfl
  have hM : MAX_ATTEMPTS = 10 := rfl
  have hnc : ¬(now < nextAttemptTime u ∨ MAX_ATTEMPTS ≤ u.attempts) := by
    rw [hnx, hM]
    omega
  rcases List.append_of_mem hmem with ⟨l1, l2, rfl⟩
  have hids : ∀ e, (e ∈ l1 ∨ e ∈ l2) → e.id ≠ u.id := by
    intro e he heid
    have heu : e = u := List.inj_on_of_nodup_map hnd
      (by rcases he with he | he
          · exact List.mem_append_left _ he
          · exact List.mem_append_right _ (List.mem_cons_of_mem u he)) hmem heid
    subst heu
    rw [List.map_append, List.map_cons] at hnd
    rcases List.nodup_append.mp hnd with ⟨_, hnd2, hdisj⟩
    rcases he with he | he
    · exact (hdisj (List.mem_map_of_mem _ he) (List.mem_cons_self _ _)).elim
    · exact ((List.nodup_cons.mp hnd2).1 (List.mem_map_of_mem _ he)).elim
  unfold retryPendingUploads retryPendingUploadsFull
  rw [retryFull_fst_foldl now url ok _ _ []]
  rw [List.foldl_append, List.foldl_cons]
  set q0 : List PendingUpload := l1 ++ u :: l2 with hq0
  have hu_q1 : u ∈ l1.foldl (sweepEntry now url ok) q0 :=
    mem_foldl_sweep_of_ne now url ok u l1 (fun e he => hids e (Or.inl he)) q0
      (List.mem_append_right _ (List.mem_cons_self u l2))
  set q1 := l1.foldl (sweepEntry now url ok) q0 with hq1
  constructor
  · intro hlt
    have hatt : ¬ MAX_ATTEMPTS ≤ u.attempts + 1 := by rw [hM]; omega
    have hstep : sweepEntry now url ok q1 u = q1.map (failUpdate now err u.id) := by
      unfold sweepEntry
      rw [sweepEntryFull_fail_keep now url ok q1 u err hnc hurl hfail hatt]
    rw [hstep]
    have hupd : failUpdate now err u.id u =
        { u with attempts := u.attempts + 1, lastAttemptTime := now, error := some err } := by
      simp [failUpdate]
    refine mem_foldl_sweep_of_ne now url ok
      { u with attempts := u.attempts + 1, lastAttemptTime := now, error := some err } l2
      (fun e he => hids e (Or.inr he)) _ ?_
    rw [← hupd]
    exact List.mem_map_of_mem _ hu_q1
  · intro h10
    have hatt : MAX_ATTEMPTS ≤ u.attempts + 1 := by rw [hM]; omega
    have hstep : sweepEntry now url ok q1 u =
        (q1.map (failUpdate now err u.id)).filter (fun v => decide (v.id ≠ u.id)) := by
      unfold sweepEntry
      rw [sweepEntryFull_fail_evict now url ok q1 u err hnc hurl hfail hatt]
    rw [hstep]
    refine id_absent_foldl_sweep now url ok u.id l2 _ ?_
    intro v hv
    exact of_decide_eq_true (List.mem_filter.mp hv).2

/-- Witness for C2: a failing eligible entry with `attempts = 1` is kept with
`attempts = 2`, and a failing eligible entry with `attempts = 9` (its 10th
attempt) is evicted. -/
def sampleUpload9 : PendingUpload :=
  { id := "a9", fileName := "g.mid", filePath := "./midi_files/g.mid",
    contentType := "audio/midi", attempts := 9, lastAttemptTime := 0, error := none }

theorem c2_retry_failure_update_witness :
    ((sampleUpload.lastAttemptTime + 2 ^ (sampleUpload.attempts - 1) * 60 * 1000 ≤ 60000 ∧
        sampleUpload.attempts < 10) ∧
      (sampleUpload9.lastAttemptTime + 2 ^ (sampleUpload9.attempts - 1) * 60 * 1000 ≤ 20000000 ∧
        sampleUpload9.attempts < 10)) ∧
    (({ id := "a1", fileName := "f.mid", filePath := "./midi_files/f.mid",
        contentType := "audio/midi", attempts := 2, lastAttemptTime := 60000,
        error := some "boom" } : PendingUpload) ∈
          retryPendingUploads 60000 "http://u" (fun _ => some "boom") [sampleUpload] ∧
      ∀ v ∈ retryPendingUploads 20000000 "http://u" (fun _ => some "boom") [sampleUpload9],
        v.id ≠ sampleUpload9.id) :=
  ⟨⟨by decide, by decide⟩,
    ⟨(c2_retry_failure_update 60000 "http://u" (fun _ => some "boom") [sampleUpload]
        sampleUpload "boom" (by decide) (by decide) (by decide) (by decide) (by decide)).1
        (by decide),
      (c2_retry_failure_update 20000000 "http://u" (fun _ => some "boom") [sampleUpload9]
        sampleUpload9 "boom" (by decide) (by decide) (by decide) (by decide) (by decide)).2
        (by decide)⟩⟩

end JamScribe

namespace JamScribe

/-! ## Event encoder (`services/recorder.ts`, `MidiRecorderImpl`) -/

/-- The event kinds dispatched on by `convertMidiEventToMidiFileFormat`
(`event.event.type`): `'noteon'`, `'noteoff'`, `'cc'`, anything else. -/
inductive MKind where
  | noteon
  | noteoff
  | cc
  | other
deriving DecidableEq

/-- The fields of an incoming `MidiEventFull.event` that the recorder reads. -/
structure MEvent where
  kind : MKind
  number : Nat
  velocity : Option Nat
  value : Option Nat
  channel : Nat
deriving DecidableEq

/-- A `midi-file` track event as produced by the recorder.  The controller
`value` stays optional because the source passes `event.event.value!`
through unchecked, so an absent value is emitted as `undefined`. -/
inductive MidiTrackEvent where
  | noteOn (deltaTime : ℤ) (noteNumber : Nat) (velocity : Nat) (channel : Nat)
  | noteOff (deltaTime : ℤ) (noteNumber : Nat) (velocity : Nat) (channel : Nat)
  | controller (deltaTime : ℤ) (controllerType : Nat) (value : Option Nat) (channel : Nat)
deriving DecidableEq

/-- `TICKS_PER_BEAT = 480`. -/
def TICKS_PER_BEAT : ℚ := 480

/-- `BPM = 120`. -/
def BPM : ℚ := 120

/-- JavaScript `Math.round`: round half towards positive infinity. -/
def jsRound (x : ℚ) : ℤ := ⌊x + 1 / 2⌋

/-- `calculateDeltaTime`: `msPerBeat = (60 / BPM) * 1000`;
`Math.round((msDifference / msPerBeat) * TICKS_PER_BEAT)`.  No clamping of
negative differences is performed. -/
def calculateDeltaTime (previousTime currentTime : ℚ) : ℤ :=
  jsRound ((currentTime - previousTime) / ((60 / BPM) * 1000) * TICKS_PER_BEAT)

/-- `convertMidiEventToMidiFileFormat`.  `velocity: event.event.velocity || 64`
yields 64 both when the velocity is absent and when it is 0 (JavaScript
falsiness); `value: event.event.value!` passes an absent controller value
through unchanged; unrecognized kinds return `null`. -/
def convertMidiEventToMidiFileFormat (event : MEvent) (deltaTime : ℤ) :
    Option MidiTrackEvent :=
  match event.kind with
  | .noteon =>
    some (.noteOn deltaTime event.number
      (match event.velocity with
       | some v => if v = 0 then 64 else v
       | none => 64)
      event.channel)
  | .noteoff => some (.noteOff deltaTime event.number 0 event.channel)
  | .cc => some (.controller deltaTime event.number event.value event.channel)
  | .other => none

/-- The `midiEvents.forEach` body of `saveRecordedMidiToFile`: compute the
delta from the running `previousTime`, advance `previousTime` (also for
dropped events), and push the converted event when it is non-null. -/
def encodeLoop (prev : ℚ) : List (MEvent × ℚ) → List MidiTrackEvent
  | [] => []
  | (e, t) :: rest =>
    match convertMidiEventToMidiFileFormat e (calculateDeltaTime prev t) with
    | some m => m :: encodeLoop t rest
    | none => encodeLoop t rest

/-- The track produced by `saveRecordedMidiToFile` from a device's buffer:
`previousTime` starts at the first event's time. -/
def encodeTrack : List (MEvent × ℚ) → List MidiTrackEvent
  | [] => []
  | (e0, t0) :: rest => encodeLoop t0 ((e0, t0) :: rest)

/-- The tick delta carried by an encoded track event. -/
def deltaTimeOf : MidiTrackEvent → ℤ
  | .noteOn d _ _ _ => d
  | .noteOff d _ _ _ => d
  | .controller d _ _ _ => d

/-- Modelled from the spec claim wording: the tick deltas of consecutive
arrival-time pairs, `round((arrival[i] - arrival[i-1]) / (60000/120) * 480)`. -/
def specConsecDeltas : List ℚ → List ℤ
  | t0 :: t1 :: rest => jsRound ((t1 - t0) / (60000 / 120) * 480) :: specConsecDeltas (t1 :: rest)
  | _ => []

theorem convert_delta_of_known (e : MEvent) (d : ℤ) (h : e.kind ≠ MKind.other) :
    ∃ m, convertMidiEventToMidiFileFormat e d = some m ∧ deltaTimeOf m = d := by
  cases hk : e.kind
  · simp only [convertMidiEventToMidiFileFormat, hk]
    exact ⟨_, rfl, rfl⟩
  · simp only [convertMidiEventToMidiFileFormat, hk]
    exact ⟨_, rfl, rfl⟩
  · simp only [convertMidiEventToMidiFileFormat, hk]
    exact ⟨_, rfl, rfl⟩
  · exact absurd hk h

theorem calculateDeltaTime_eq_spec (prev t : ℚ) :
    calculateDeltaTime prev t = jsRound ((t - prev) / (60000 / 120) * 480) := by
  unfold calculateDeltaTime
  norm_num [BPM, TICKS_PER_BEAT]

theorem encodeLoop_deltas (l : List (MEvent × ℚ)) (h : ∀ p ∈ l, p.1.kind ≠ MKind.other) :
    ∀ prev, (encodeLoop prev l).map deltaTimeOf = specConsecDeltas (prev :: l.map Prod.snd) := by
  induction l with
  | nil => intro prev; rfl
  | cons p rest ih =>
    intro prev
    obtain ⟨e, t⟩ := p
    have hk : e.kind ≠ MKind.other := h (e, t) (List.mem_cons_self _ _)
    rcases convert_delta_of_known e (calculateDeltaTime prev t) hk with ⟨m, hm, hd⟩
    simp only [encodeLoop, hm, List.map_cons, hd]
    rw [ih (fun q hq => h q (List.mem_cons_of_mem _ hq)) t]
    simp only [List.map_cons, specConsecDeltas]
    rw [calculateDeltaTime_eq_spec]

/-- C3: for a non-empty, time-ordered buffer whose events are all of
recognized kinds, the encoded track's first tick delta is 0 and each
subsequent delta is `round((arrival[i] - arrival[i-1]) / (60000/120) * 480)`. -/
theorem c3_encoded_deltas (events : List (MEvent × ℚ))
    (hne : events ≠ [])
    (hord : List.Chain' (· ≤ ·) (events.map Prod.snd))
    (hk : ∀ p ∈ events, p.1.kind ≠ MKind.other) :
    (encodeTrack events).map deltaTimeOf = 0 :: specConsecDeltas (events.map Prod.snd) := by
  match events, hne with
  | (e0, t0) :: rest, _ =>
    unfold encodeTrack
    rw [encodeLoop_deltas ((e0, t0) :: rest) hk t0]
    simp only [List.map_cons, specConsecDeltas]
    congr 1
    show jsRound ((t0 - t0) / (60000 / 120) * 480) = 0
    norm_num [jsRound]

/-- Scenario A buffer: NoteOn(60, vel 100) at 0ms, NoteOn(64) at 500ms,
NoteOff(60) at 1000ms, NoteOff(64) at 1200ms on one device. -/
def scenarioA : List (MEvent × ℚ) :=
  [(⟨MKind.noteon, 60, some 100, none, 0⟩, 0),
   (⟨MKind.noteon, 64, some 100, none, 0⟩, 500),
   (⟨MKind.noteoff, 60, none, none, 0⟩, 1000),
   (⟨MKind.noteoff, 64, none, none, 0⟩, 1200)]

/-- Witness for C3: Scenario A encodes to tick deltas `[0, 480, 480, 192]`. -/
theorem c3_encoded_deltas_witness :
    (scenarioA ≠ [] ∧ List.Chain' (· ≤ ·) (scenarioA.map Prod.snd) ∧
      (∀ p ∈ scenarioA, p.1.kind ≠ MKind.other)) ∧
    (encodeTrack scenarioA).map deltaTimeOf = [0, 480, 480, 192] := by
  have h1 : scenarioA ≠ [] := by simp [scenarioA]
  have h2 : List.Chain' (· ≤ ·) (scenarioA.map Prod.snd) := by
    norm_num [scenarioA, List.chain'_cons]
  have h3 : ∀ p ∈ scenarioA, p.1.kind ≠ MKind.other := by decide
  refine ⟨⟨h1, h2, h3⟩, ?_⟩
  rw [c3_encoded_deltas scenarioA h1 h2 h3]
  norm_num [scenarioA, specConsecDeltas, jsRound]

end JamScribe

namespace JamScribe

/-- C4 counterexample: a NoteOn with supplied velocity 0 is emitted with
velocity 64 (JavaScript `velocity || 64` treats 0 as falsy), and a
Controller event with an absent value is emitted (with the absent value
passed through), not dropped. -/
theorem c4_kind_mapping_counterexample :
    convertMidiEventToMidiFileFormat ⟨MKind.noteon, 60, some 0, none, 0⟩ 0 =
      some (.noteOn 0 60 64 0) ∧
    convertMidiEventToMidiFileFormat ⟨MKind.cc, 7, none, none, 0⟩ 0 =
      some (.controller 0 7 none 0) := by
  exact ⟨rfl, rfl⟩

/-- C4 (amended): NoteOn becomes a note-on carrying the supplied velocity,
or 64 if the velocity is absent or zero; NoteOff becomes a note-off with
velocity 0 regardless of input velocity; Controller becomes a
controller-change with the supplied number and the (possibly absent) value
passed through, never dropped; any other kind is silently dropped. -/
theorem c4_kind_mapping (e : MEvent) (d : ℤ) :
    (e.kind = MKind.noteon →
      ((e.velocity = none ∨ e.velocity = some 0 →
          convertMidiEventToMidiFileFormat e d = some (.noteOn d e.number 64 e.channel)) ∧
        (∀ v, e.velocity = some v → v ≠ 0 →
          convertMidiEventToMidiFileFormat e d = some (.noteOn d e.number v e.channel))))
    ∧ (e.kind = MKind.noteoff →
        convertMidiEventToMidiFileFormat e d = some (.noteOff d e.number 0 e.channel))
    ∧ (e.kind = MKind.cc →
        convertMidiEventToMidiFileFormat e d =
          some (.controller d e.number e.value e.channel))
    ∧ (e.kind = MKind.other → convertMidiEventToMidiFileFormat e d = none) := by
  refine ⟨fun hk => ⟨fun hv => ?_, fun v hv hv0 => ?_⟩, fun hk => ?_, fun hk => ?_,
    fun hk => ?_⟩
  · rcases hv with hv | hv <;> simp [convertMidiEventToMidiFileFormat, hk, hv]
  · simp [convertMidiEventToMidiFileFormat, hk, hv, hv0]
  · simp [convertMidiEventToMidiFileFormat, hk]
  · simp [convertMidiEventToMidiFileFormat, hk]
  · simp [convertMidiEventToMidiFileFormat, hk]

/-- Witness for C4 at concrete events: a NoteOn with velocity 100 keeps its
velocity, and a valueless Controller is emitted. -/
theorem c4_kind_mapping_witness :
    ((⟨MKind.noteon, 60, some 100, none, 0⟩ : MEvent).kind = MKind.noteon ∧
      (⟨MKind.cc, 7, none, none, 0⟩ : MEvent).kind = MKind.cc) ∧
    (convertMidiEventToMidiFileFormat ⟨MKind.noteon, 60, some 100, none, 0⟩ 5 =
        some (.noteOn 5 60 100 0) ∧
      convertMidiEventToMidiFileFormat ⟨MKind.cc, 7, none, none, 0⟩ 5 =
        some (.controller 5 7 none 0)) :=
  ⟨⟨rfl, rfl⟩,
    ⟨((c4_kind_mapping ⟨MKind.noteon, 60, some 100, none, 0⟩ 5).1 rfl).2 100 rfl
        (by decide),
      (c4_kind_mapping ⟨MKind.cc, 7, none, none, 0⟩ 5).2.2.1 rfl⟩⟩

/-- C5 counterexample: an out-of-order adjacent pair (previous arrival
500ms, current arrival 0ms) yields tick delta −480: the encoder does not
clamp negative deltas to 0. -/
theorem c5_negative_delta_counterexample :
    calculateDeltaTime 500 0 = -480 ∧ calculateDeltaTime 500 0 < 0 := by
  constructor <;> norm_num [calculateDeltaTime, jsRound, BPM, TICKS_PER_BEAT]

/-- C5 (amended): `calculateDeltaTime` performs no clamping and no logging on
negative inter-arrival differences; whenever the current arrival precedes
the previous one by at least 1ms the encoded tick delta is strictly
negative. -/
theorem c5_no_clamp (previousTime currentTime : ℚ)
    (h : currentTime + 1 ≤ previousTime) :
    calculateDeltaTime previousTime currentTime < 0 := by
  unfold calculateDeltaTime jsRound
  have h500 : ((60 : ℚ) / BPM) * 1000 = 500 := by norm_num [BPM]
  rw [h500, TICKS_PER_BEAT]
  have hlt : (currentTime - previousTime) / 500 * 480 + 1 / 2 < 0 := by
    have hd : currentTime - previousTime ≤ -1 := by linarith
    nlinarith [hd]
  refine Int.floor_lt.mpr ?_
  push_cast
  exact hlt

/-- Witness for C5 at the concrete out-of-order pair (500ms, 0ms). -/
theorem c5_no_clamp_witness :
    ((0 : ℚ) + 1 ≤ 500) ∧ calculateDeltaTime 500 0 < 0 :=
  ⟨by norm_num, c5_no_clamp 500 0 (by norm_num)⟩

end JamScribe

namespace JamScribe

/-! ## File paths (`generateFilename` and the node `fileSaver.writeFile`) -/

/-- `generateFilename`: `./midi_files/${deviceName}_${timestamp}_recording.mid`. -/
def generateFilename (deviceName timestamp : String) : String :=
  "./midi_files/" ++ deviceName ++ "_" ++ timestamp ++ "_recording.mid"

/-- The path the node-platform `fileSaver.writeFile` actually writes:
`./midi_files/${fileName}`. -/
def nodeWriteFilePath (fileName : String) : String := "./midi_files/" ++ fileName

/-- C10: the recorder already prefixes `./midi_files/` in the file name it
passes to `writeFile`, and the node `FileSaver` prepends `./midi_files/`
again, so the effective write path contains the directory segment twice. -/
theorem c10_double_midi_files_path (deviceName timestamp : String) :
    generateFilename deviceName timestamp =
      "./midi_files/" ++ (deviceName ++ "_" ++ timestamp ++ "_recording.mid") ∧
    nodeWriteFilePath (generateFilename deviceName timestamp) =
      "./midi_files/./midi_files/" ++ deviceName ++ "_" ++ timestamp ++ "_recording.mid" := by
  constructor
  · unfold generateFilename
    simp only [← String.append_assoc]
  · unfold nodeWriteFilePath generateFilename
    simp only [← String.append_assoc]
    rfl

end JamScribe

namespace JamScribe

/-! ## Upload dispatcher (`services/upload_service.ts`) and the node
`fileSaver.writeFile` upload/enqueue path (`jamscribe_module.tsx`) -/

/-- `uploadFileInternal`: when the uploader URL is empty it logs and returns
without dispatching (a success-equivalent no-op); otherwise the multipart
protocol runs, whose network outcome is the oracle `outcome` (`none` =
success, `some err` = the protocol throws; the surrounding catch rethrows).
The second component records whether any network request was dispatched. -/
def uploadFileInternal (outcome : Option String) (uploaderUrl : String) :
    Option String × Bool :=
  if uploaderUrl = "" then (none, false) else (outcome, true)

/-- Result of one `fileSaver.writeFile` call: the pending-upload queue
afterwards and whether the MIDI / audio uploads were dispatched. -/
structure WriteFileResult where
  queue : List PendingUpload
  midiDispatched : Bool
  audioDispatched : Bool
deriving DecidableEq

/-- The upload/enqueue tail of the node-platform `fileSaver.writeFile`:
try the MIDI upload and enqueue a `PendingUpload` with `attempts = 1`,
`lastAttemptTime = now` on failure; if an audio conversion product exists
(`audioFile` = its name and path), do the same for the audio upload. -/
def fileSaverWriteFile (url : String) (midiOutcome audioOutcome : Option String)
    (audioFile : Option (String × String)) (fileName filePath : String)
    (now : Nat) (id1 id2 : String) (queue : List PendingUpload) : WriteFileResult :=
  let m := uploadFileInternal midiOutcome url
  let queue1 := match m.1 with
    | none => queue
    | some e => queue ++ [⟨id1, fileName, filePath, "audio/midi", 1, now, some e⟩]
  match audioFile with
  | none => ⟨queue1, m.2, false⟩
  | some af =>
    let a := uploadFileInternal audioOutcome url
    let queue2 := match a.1 with
      | none => queue1
      | some e => queue1 ++ [⟨id2, af.1, af.2, "audio/wav", 1, now, some e⟩]
    ⟨queue2, m.2, a.2⟩

theorem sweepEntryFull_empty_url (now : Nat) (ok : PendingUpload → Option String)
    (queue : List PendingUpload) (upload : PendingUpload) :
    sweepEntryFull now "" ok queue upload = (queue, false) := by
  by_cases h : now < nextAttemptTime upload ∨ MAX_ATTEMPTS ≤ upload.attempts
  · exact sweepEntryFull_skip now "" ok queue upload h
  · exact sweepEntryFull_noUrl now ok queue upload h

theorem retryFull_empty_url_foldl (now : Nat) (ok : PendingUpload → Option String)
    (l : List PendingUpload) :
    ∀ (q : List PendingUpload) (outs : List String),
      l.foldl
        (fun acc upload =>
          let r := sweepEntryFull now "" ok acc.1 upload
          (r.1, if r.2 then acc.2 ++ [upload.id] else acc.2))
        (q, outs) = (q, outs) := by
  induction l with
  | nil => intro q outs; rfl
  | cons e l ih =>
    intro q outs
    simp only [sweepEntryFull_empty_url] at ih ⊢
    simp only [List.foldl_cons]
    exact ih q outs

/-- C8: with an empty uploader endpoint, the delivery attempt at persist
time is a no-op success-equivalent — no upload dispatched, no error, no
`PendingUpload` created — and a sweep retries nothing and leaves the queue
untouched. -/
theorem c8_empty_endpoint_noop (midiOutcome audioOutcome : Option String)
    (audioFile : Option (String × String)) (fileName filePath : String)
    (now sweepNow : Nat) (id1 id2 : String) (queue uploads : List PendingUpload)
    (ok : PendingUpload → Option String) :
    uploadFileInternal midiOutcome "" = (none, false) ∧
    fileSaverWriteFile "" midiOutcome audioOutcome audioFile fileName filePath now id1 id2
      queue = ⟨queue, false, false⟩ ∧
    retryPendingUploadsFull sweepNow "" ok uploads = (uploads, []) := by
  refine ⟨rfl, ?_, ?_⟩
  · unfold fileSaverWriteFile uploadFileInternal
    cases audioFile <;> simp
  · unfold retryPendingUploadsFull
    exact retryFull_empty_url_foldl sweepNow ok uploads uploads []

end JamScribe

namespace JamScribe

/-! ## Session tracker state (`MidiRecorderImpl`) -/

/-- Read of a JavaScript object property: `m[k]`, `undefined` as `none`.
Plain objects keyed by device name are modelled as insertion-ordered
association lists. -/
def getObj {α : Type} (m : List (String × α)) (k : String) : Option α :=
  (m.find? (fun p => decide (p.1 = k))).map Prod.snd

/-- Write of a JavaScript object property: `m[k] = v` (update in place if
the key exists, else append, preserving insertion order). -/
def updObj {α : Type} (m : List (String × α)) (k : String) (v : α) :
    List (String × α) :=
  if m.any (fun p => decide (p.1 = k)) then
    m.map (fun p => if p.1 = k then (k, v) else p)
  else m ++ [(k, v)]

theorem find?_upd_self {α : Type} (k : String) (v : α) (m : List (String × α))
    (hany : m.any (fun p => decide (p.1 = k)) = true) :
    (m.map (fun p => if p.1 = k then (k, v) else p)).find? (fun p => decide (p.1 = k)) =
      some (k, v) := by
  induction m with
  | nil => simp at hany
  | cons q m ih =>
    by_cases hq : q.1 = k
    · simp [List.find?_cons, hq]
    · rw [List.any_cons] at hany
      simp only [hq, decide_False, Bool.false_or] at hany
      rw [List.map_cons, if_neg hq, List.find?_cons_of_neg _ (by simp [hq])]
      exact ih hany

theorem find?_upd_ne {α : Type} (k k2 : String) (h : k2 ≠ k) (v : α)
    (m : List (String × α)) :
    (m.map (fun p => if p.1 = k then (k, v) else p)).find? (fun p => decide (p.1 = k2)) =
      m.find? (fun p => decide (p.1 = k2)) := by
  induction m with
  | nil => rfl
  | cons q m ih =>
    by_cases hq : q.1 = k
    · have h1 : ¬ ((k : String), v).1 = k2 := fun hc => h (hc.symm)
      have h2 : ¬ q.1 = k2 := by rw [hq]; exact fun hc => h hc.symm
      rw [List.map_cons, if_pos hq, List.find?_cons_of_neg _ (by simp [h1]),
        List.find?_cons_of_neg _ (by simp [h2])]
      exact ih
    · by_cases hq2 : q.1 = k2
      · rw [List.map_cons, if_neg hq, List.find?_cons_of_pos _ (by simp [hq2]),
          List.find?_cons_of_pos _ (by simp [hq2])]
      · rw [List.map_cons, if_neg hq, List.find?_cons_of_neg _ (by simp [hq2]),
          List.find?_cons_of_neg _ (by simp [hq2])]
        exact ih

theorem find?_none_of_any_false {α : Type} (k : String) (m : List (String × α))
    (hany : ¬ m.any (fun p => decide (p.1 = k)) = true) :
    m.find? (fun p => decide (p.1 = k)) = none := by
  refine List.find?_eq_none.mpr ?_
  intro p hp
  simp only [decide_eq_true_eq]
  intro hc
  exact hany (List.any_eq_true.mpr ⟨p, hp, decide_eq_true hc⟩)

theorem getObj_updObj_self {α : Type} (m : List (String × α)) (k : String) (v : α) :
    getObj (updObj m k v) k = some v := by
  unfold updObj
  split
  · rename_i hany
    unfold getObj
    rw [find?_upd_self k v m hany]
    rfl
  · rename_i hany
    unfold getObj
    rw [List.find?_append, find?_none_of_any_false k m hany]
    simp

theorem getObj_updObj_ne {α : Type} (m : List (String × α)) (k k2 : String) (v : α)
    (h : k2 ≠ k) : getObj (updObj m k v) k2 = getObj m k2 := by
  unfold updObj
  split
  · unfold getObj
    rw [find?_upd_ne k k2 h v m]
  · unfold getObj
    rw [List.find?_append]
    have hkk2 : ¬ ((k : String), v).1 = k2 := fun hc => h hc.symm
    have hlast : ([((k : String), v)]).find? (fun p => decide (p.1 = k2)) = none := by
      rw [List.find?_cons_of_neg _ (by simp [hkk2])]
      rfl
    rw [hlast]
    cases m.find? (fun p => decide (p.1 = k2)) <;> rfl

theorem mem_updObj_self {α : Type} (m : List (String × α)) (k : String) (v : α) :
    (k, v) ∈ updObj m k v := by
  unfold updObj
  split
  · rename_i hany
    rcases List.any_eq_true.mp hany with ⟨p, hp, hpk⟩
    have hpk2 : p.1 = k := of_decide_eq_true hpk
    have := List.mem_map_of_mem (fun p : String × α => if p.1 = k then (k, v) else p) hp
    simpa [hpk2] using this
  · exact List.mem_append_right _ (List.mem_cons_self _ _)

theorem mem_updObj_elim {α : Type} (m : List (String × α)) (k : String) (v : α)
    (p : String × α) (hp : p ∈ updObj m k v) :
    p = (k, v) ∨ (p ∈ m ∧ p.1 ≠ k) := by
  unfold updObj at hp
  split at hp
  · rcases List.mem_map.mp hp with ⟨q, hq, hqp⟩
    by_cases hqk : q.1 = k
    · left
      rw [← hqp]
      simp [hqk]
    · right
      rw [← hqp]
      simp only [if_neg hqk]
      exact ⟨hq, hqk⟩
  · rename_i hany
    rcases List.mem_append.mp hp with hp | hp
    · right
      refine ⟨hp, ?_⟩
      intro hc
      rw [List.any_eq_true] at hany
      exact hany ⟨p, hp, decide_eq_true hc⟩
    · left
      simpa using hp

theorem keys_updObj_of_mem {α : Type} (m : List (String × α)) (k : String) (v : α)
    (h : k ∈ m.map Prod.fst) : (updObj m k v).map Prod.fst = m.map Prod.fst := by
  unfold updObj
  have hany : m.any (fun p => decide (p.1 = k)) = true := by
    rcases List.mem_map.mp h with ⟨p, hp, hpk⟩
    exact List.any_eq_true.mpr ⟨p, hp, decide_eq_true hpk⟩
  rw [if_pos hany, List.map_map]
  refine List.map_congr_left ?_
  intro p hp
  by_cases hpk : p.1 = k <;> simp [hpk]

theorem getObj_of_nodup {α : Type} (m : List (String × α))
    (hnd : (m.map Prod.fst).Nodup) (p : String × α) (hp : p ∈ m) :
    getObj m p.1 = some p.2 := by
  induction m with
  | nil => simp at hp
  | cons q m ih =>
    rcases List.mem_cons.mp hp with hpq | hp2
    · subst hpq
      simp [getObj, List.find?_cons]
    · by_cases hq : q.1 = p.1
      · exfalso
        rw [List.map_cons, List.nodup_cons] at hnd
        exact hnd.1 (hq ▸ List.mem_map_of_mem Prod.fst hp2)
      · unfold getObj
        rw [List.find?_cons_of_neg _ (by simpa using hq)]
        exact ih (List.nodup_cons.mp (by simpa using hnd)).2 hp2

end JamScribe

namespace JamScribe

/-! ## Flush (`saveRecordedMidiToFile`, `stopRecordingForAllDevices`) -/

/-- Observable outcome of one device's flush step. -/
inductive SaveOutcome where
  | empty
  | saved (path : String) (bytes : List Nat)
  | failed (msg : String)
deriving DecidableEq

/-- `saveRecordedMidiToFile` for one device: return early on an empty
buffer; otherwise encode the buffer, then inside `try` serialize it
(`writeMidi`, modelled by the oracle `serialize`) and dispatch
`fileSaver.writeFile`; a serialization exception is caught and logged
(`failed`).  The `writeFile` promise is not awaited, so its outcome cannot
affect control flow. -/
def saveRecordedMidiToFile (serialize : List MidiTrackEvent → Except String (List Nat))
    (timestamp : String) (buf : List (MEvent × ℚ)) (deviceName : String) : SaveOutcome :=
  match buf with
  | [] => .empty
  | _ :: _ =>
    match serialize (encodeTrack buf) with
    | .ok bytes => .saved (generateFilename deviceName timestamp) bytes
    | .error msg => .failed msg

/-- `stopRecordingForAllDevices`: for each device key of `recordedEvents`
(in insertion order), run its save step on its current buffer, then clear
the buffer.  The second component collects the per-device outcomes. -/
def stopRecordingForAllDevices (serialize : List MidiTrackEvent → Except String (List Nat))
    (timestamp : String) (evs : List (String × List (MEvent × ℚ))) :
    List (String × List (MEvent × ℚ)) × List SaveOutcome :=
  (evs.map Prod.fst).foldl
    (fun acc k =>
      (updObj acc.1 k [],
        acc.2 ++ [saveRecordedMidiToFile serialize timestamp ((getObj acc.1 k).getD []) k]))
    (evs, [])

theorem stop_fst_foldl (serialize : List MidiTrackEvent → Except String (List Nat))
    (timestamp : String) (ks : List String) :
    ∀ (a : List (String × List (MEvent × ℚ))) (outs : List SaveOutcome),
      (ks.foldl
        (fun acc k =>
          (updObj acc.1 k [],
            acc.2 ++ [saveRecordedMidiToFile serialize timestamp
              ((getObj acc.1 k).getD []) k]))
        (a, outs)).1 =
      ks.foldl (fun a k => updObj a k []) a := by
  induction ks with
  | nil => intro a outs; rfl
  | cons k ks ih =>
    intro a outs
    simp only [List.foldl_cons]
    exact ih _ _

theorem foldl_clear_values (ks : List String) :
    ∀ (a : List (String × List (MEvent × ℚ))),
      (∀ q ∈ a, q.2 = [] ∨ q.1 ∈ ks) →
      ∀ q ∈ ks.foldl (fun a k => updObj a k []) a, q.2 = [] := by
  induction ks with
  | nil =>
    intro a ha q hq
    rcases ha q hq with h | h
    · exact h
    · simp at h
  | cons k ks ih =>
    intro a ha
    simp only [List.foldl_cons]
    refine ih (updObj a k []) ?_
    intro q hq
    rcases mem_updObj_elim a k [] q hq with hq2 | ⟨hq2, hq3⟩
    · left
      rw [hq2]
    · rcases ha q hq2 with h | h
      · exact Or.inl h
      · rcases List.mem_cons.mp h with h | h
        · exact absurd h hq3
        · exact Or.inr h

theorem stop_snd_foldl (serialize : List MidiTrackEvent → Except String (List Nat))
    (timestamp : String) (ks : List String) :
    ∀ (a : List (String × List (MEvent × ℚ))) (outs : List SaveOutcome), ks.Nodup →
      (ks.foldl
        (fun acc k =>
          (updObj acc.1 k [],
            acc.2 ++ [saveRecordedMidiToFile serialize timestamp
              ((getObj acc.1 k).getD []) k]))
        (a, outs)).2 =
      outs ++ ks.map (fun k =>
        saveRecordedMidiToFile serialize timestamp ((getObj a k).getD []) k) := by
  induction ks with
  | nil => intro a outs _; simp
  | cons k ks ih =>
    intro a outs hnd
    simp only [List.foldl_cons, List.map_cons]
    rw [ih (updObj a k []) _ (List.nodup_cons.mp hnd).2]
    have hmap : ks.map (fun k2 =>
        saveRecordedMidiToFile serialize timestamp ((getObj (updObj a k []) k2).getD []) k2) =
        ks.map (fun k2 =>
          saveRecordedMidiToFile serialize timestamp ((getObj a k2).getD []) k2) := by
      refine List.map_congr_left ?_
      intro k2 hk2
      rw [getObj_updObj_ne a k k2 []
        (fun hc => (List.nodup_cons.mp hnd).1 (hc ▸ hk2))]
    rw [hmap]
    simp

/-- C7: a flush-all with any serialization behaviour (including one that
throws for some devices) clears every device's buffer, and produces for
each device exactly the outcome of that device's own save step on its own
buffer — one device's failure never affects another device's flush or the
clearing of any buffer. -/
theorem c7_flush_isolation (serialize : List MidiTrackEvent → Except String (List Nat))
    (timestamp : String) (evs : List (String × List (MEvent × ℚ)))
    (hnd : (evs.map Prod.fst).Nodup) :
    (∀ q ∈ (stopRecordingForAllDevices serialize timestamp evs).1, q.2 = []) ∧
    (stopRecordingForAllDevices serialize timestamp evs).2 =
      evs.map (fun p => saveRecordedMidiToFile serialize timestamp p.2 p.1) := by
  constructor
  · unfold stopRecordingForAllDevices
    rw [stop_fst_foldl serialize timestamp (evs.map Prod.fst) evs []]
    refine foldl_clear_values (evs.map Prod.fst) evs ?_
    intro q hq
    exact Or.inr (List.mem_map_of_mem Prod.fst hq)
  · unfold stopRecordingForAllDevices
    rw [stop_snd_foldl serialize timestamp (evs.map Prod.fst) evs [] hnd]
    rw [List.map_map, List.nil_append]
    refine List.map_congr_left ?_
    intro p hp
    simp only [Function.comp_apply]
    rw [getObj_of_nodup evs hnd p hp]
    rfl

/-- Concrete event used in session-machine witnesses and counterexamples. -/
def eventA : MEvent := ⟨MKind.noteon, 60, some 100, none, 0⟩

/-- A serializer that throws for every track. -/
def serializeFail : List MidiTrackEvent → Except String (List Nat) :=
  fun _ => .error "writeMidi boom"

/-- Witness for C7: two devices, a serializer that always throws — both
buffers are cleared and each device gets its own failure outcome. -/
theorem c7_flush_isolation_witness :
    (([("A", [(eventA, (0 : ℚ))]), ("B", [(eventA, 1)])].map Prod.fst).Nodup) ∧
    ((∀ q ∈ (stopRecordingForAllDevices serializeFail "ts"
        [("A", [(eventA, 0)]), ("B", [(eventA, 1)])]).1, q.2 = []) ∧
      (stopRecordingForAllDevices serializeFail "ts"
          [("A", [(eventA, 0)]), ("B", [(eventA, 1)])]).2 =
        [("A", [(eventA, (0 : ℚ))]), ("B", [(eventA, 1)])].map
          (fun p => saveRecordedMidiToFile serializeFail "ts" p.2 p.1)) :=
  ⟨by decide,
    c7_flush_isolation serializeFail "ts" [("A", [(eventA, 0)]), ("B", [(eventA, 1)])]
      (by decide)⟩

end JamScribe

namespace JamScribe

/-! ## Session state machine (`MidiRecorderImpl` fields and handlers) -/

/-- A live `setTimeout` handle: its id (as stored in `deviceTimeouts`),
the device whose inactivity it watches, and its due time. -/
structure TimerRec where
  id : Nat
  device : String
  fireAt : ℚ
deriving DecidableEq

/-- The mutable fields of `MidiRecorderImpl`, together with the scheduler
state: the pending (scheduled, not yet fired or cancelled) timers, a
fresh-handle counter, and the current clock. -/
structure RecorderState where
  deviceActivity : List (String × Bool)
  recordedEvents : List (String × List (MEvent × ℚ))
  deviceTimeouts : List (String × Nat)
  pendingTimers : List TimerRec
  nextId : Nat
  now : ℚ
deriving DecidableEq

/-- The recorder before any event: all maps empty. -/
def initialState : RecorderState := ⟨[], [], [], [], 0, 0⟩

/-- `clearTimeout(handle)`: cancel the pending timer with that handle. -/
def clearTimeoutBy (pending : List TimerRec) (h : Nat) : List TimerRec :=
  pending.filter (fun tm => decide (tm.id ≠ h))

/-- `resetDeviceInactivityTimerForDevice`: cancel the stored handle (if
any), schedule a fresh timer due `limitMs` from now, and store its handle. -/
def resetDeviceInactivityTimerForDevice (limitMs : ℚ) (s : RecorderState)
    (deviceName : String) : RecorderState :=
  let pending1 := match getObj s.deviceTimeouts deviceName with
    | some h => clearTimeoutBy s.pendingTimers h
    | none => s.pendingTimers
  { s with
    pendingTimers := pending1 ++ [⟨s.nextId, deviceName, s.now + limitMs⟩],
    deviceTimeouts := updObj s.deviceTimeouts deviceName s.nextId,
    nextId := s.nextId + 1 }

/-- `handleMidiEvent`: mark the device active, append the event to its
buffer (creating it when absent or empty), and reset its inactivity
timer. -/
def handleMidiEvent (limitMs : ℚ) (s : RecorderState) (deviceName : String)
    (e : MEvent) (t : ℚ) : RecorderState :=
  let s1 := { s with
    now := t,
    deviceActivity := updObj s.deviceActivity deviceName true,
    recordedEvents := updObj s.recordedEvents deviceName
      (((getObj s.recordedEvents deviceName).getD []) ++ [(e, t)]) }
  resetDeviceInactivityTimerForDevice limitMs s1 deviceName

/-- The `setTimeout` callback of `resetDeviceInactivityTimerForDevice`
firing for `tm`: the timer is consumed, the device goes inactive, and when
every tracked device is inactive, `stopRecordingForAllDevices` clears all
buffers.  `deviceTimeouts` keeps the stale handle, as in the source. -/
def fireTimer (serialize : List MidiTrackEvent → Except String (List Nat))
    (timestamp : String) (s : RecorderState) (tm : TimerRec) : RecorderState :=
  let s1 := { s with
    now := tm.fireAt,
    pendingTimers := s.pendingTimers.filter (fun q => decide (q.id ≠ tm.id)),
    deviceActivity := updObj s.deviceActivity tm.device false }
  if s1.deviceActivity.all (fun p => p.2 == false) then
    { s1 with recordedEvents :=
        (stopRecordingForAllDevices serialize timestamp s1.recordedEvents).1 }
  else s1

/-- One scheduler step: either a MIDI event arrives (at a time no earlier
than the clock and no later than any pending timer's due time, since a due
timer fires first), or the earliest due pending timer fires. -/
inductive RStep (limitMs : ℚ) (serialize : List MidiTrackEvent → Except String (List Nat))
    (timestamp : String) : RecorderState → RecorderState → Prop where
  | event (s : RecorderState) (deviceName : String) (e : MEvent) (t : ℚ)
      (hnow : s.now ≤ t) (hdue : ∀ tm ∈ s.pendingTimers, t ≤ tm.fireAt) :
      RStep limitMs serialize timestamp s (handleMidiEvent limitMs s deviceName e t)
  | fire (s : RecorderState) (tm : TimerRec) (hmem : tm ∈ s.pendingTimers)
      (hnow : s.now ≤ tm.fireAt) (hmin : ∀ q ∈ s.pendingTimers, tm.fireAt ≤ q.fireAt) :
      RStep limitMs serialize timestamp s (fireTimer serialize timestamp s tm)

/-- States reachable from the fresh recorder. -/
inductive Reachable (limitMs : ℚ) (serialize : List MidiTrackEvent → Except String (List Nat))
    (timestamp : String) : RecorderState → Prop where
  | init : Reachable limitMs serialize timestamp initialState
  | step {s s2 : RecorderState} : Reachable limitMs serialize timestamp s →
      RStep limitMs serialize timestamp s s2 → Reachable limitMs serialize timestamp s2

/-- C6 (amended): buffers are emptied only by the collective flush, which
runs exactly when every tracked device is inactive; hence in any reachable
state in which all devices are idle, every buffer is empty.  (A device that
went idle while another was still recording can retain a non-empty
buffer — see the counterexample.) -/
theorem c6_all_idle_buffers_empty (limitMs : ℚ)
    (serialize : List MidiTrackEvent → Except String (List Nat)) (timestamp : String)
    (s : RecorderState) (hreach : Reachable limitMs serialize timestamp s)
    (hidle : ∀ p ∈ s.deviceActivity, p.2 = false) :
    ∀ q ∈ s.recordedEvents, q.2 = [] := by
  induction hreach with
  | init => intro q hq; simp [initialState] at hq
  | step hprev hstep ih =>
    rename_i spre snext
    clear hprev ih
    cases hstep with
    | event deviceName e t hnow hdue =>
      exfalso
      have hmem : (deviceName, true) ∈
          (handleMidiEvent limitMs spre deviceName e t).deviceActivity := by
        simp only [handleMidiEvent, resetDeviceInactivityTimerForDevice]
        exact mem_updObj_self spre.deviceActivity deviceName true
      have := hidle (deviceName, true) hmem
      simp at this
    | fire tm hmem hnow hmin =>
      simp only [fireTimer] at hidle ⊢
      by_cases hall :
          ((updObj spre.deviceActivity tm.device false).all (fun p => p.2 == false)) = true
      · rw [if_pos hall] at hidle ⊢
        simp only
        unfold stopRecordingForAllDevices
        rw [stop_fst_foldl serialize timestamp _ _ []]
        refine foldl_clear_values _ _ ?_
        intro q hq
        exact Or.inr (List.mem_map_of_mem Prod.fst hq)
      · rw [if_neg hall] at hidle ⊢
        exfalso
        refine hall (List.all_eq_true.mpr ?_)
        intro p hp
        have := hidle p hp
        simp [this]

end JamScribe

namespace JamScribe

/-- A serializer that succeeds for every track. -/
def serializeOk : List MidiTrackEvent → Except String (List Nat) :=
  fun _ => .ok []

/-- Counterexample trace for C6, step 1: device A plays at t = 0ms. -/
def cexS1 : RecorderState := handleMidiEvent 60000 initialState "A" eventA 0

/-- Counterexample trace, step 2: device B plays at t = 1ms. -/
def cexS2 : RecorderState := handleMidiEvent 60000 cexS1 "B" eventA 1

/-- Counterexample trace, step 3: device A's inactivity timer fires at
t = 60000ms while device B is still active, so no flush-all happens. -/
def cexS3 : RecorderState := fireTimer serializeOk "ts" cexS2 ⟨0, "A", 0 + 60000⟩

theorem cexS1_pending : cexS1.pendingTimers = [⟨0, "A", 0 + 60000⟩] := rfl

theorem cexS1_now : cexS1.now = 0 := rfl

theorem cexS2_pending : cexS2.pendingTimers = [⟨0, "A", 0 + 60000⟩, ⟨1, "B", 1 + 60000⟩] := rfl

theorem cexS2_now : cexS2.now = 1 := rfl

theorem cexS1_reachable : Reachable 60000 serializeOk "ts" cexS1 :=
  Reachable.step Reachable.init
    (RStep.event initialState "A" eventA 0 le_rfl (by simp [initialState]))

theorem cexS2_reachable : Reachable 60000 serializeOk "ts" cexS2 := by
  refine Reachable.step cexS1_reachable (RStep.event cexS1 "B" eventA 1 ?_ ?_)
  · rw [cexS1_now]
    norm_num
  · intro tm htm
    rw [cexS1_pending] at htm
    rcases List.mem_singleton.mp htm with rfl
    norm_num

theorem cexS3_reachable : Reachable 60000 serializeOk "ts" cexS3 := by
  refine Reachable.step cexS2_reachable ?_
  refine RStep.fire cexS2 ⟨0, "A", 0 + 60000⟩ ?_ ?_ ?_
  · rw [cexS2_pending]
    exact List.mem_cons_self _ _
  · rw [cexS2_now]
    norm_num
  · intro q hq
    rw [cexS2_pending] at hq
    rcases List.mem_cons.mp hq with rfl | hq
    · norm_num
    · rcases List.mem_singleton.mp hq with rfl
      norm_num

/-- C6 counterexample: in the reachable state after device A's timer fires
while B is still active, device A is idle yet its buffer still holds the
recorded event — the claimed invariant fails. -/
theorem c6_idle_nonempty_buffer_counterexample :
    Reachable 60000 serializeOk "ts" cexS3 ∧
    getObj cexS3.deviceActivity "A" = some false ∧
    getObj cexS3.recordedEvents "A" = some [(eventA, 0)] ∧
    ([(eventA, (0 : ℚ))] : List (MEvent × ℚ)) ≠ [] :=
  ⟨cexS3_reachable, rfl, rfl, by simp⟩

/-- Witness for the amended C6 theorem at a reachable all-idle state: a
single device records, its timer fires, all devices are idle, the flush
leaves its buffer empty. -/
def cexFlushed : RecorderState := fireTimer serializeOk "ts" cexS1 ⟨0, "A", 0 + 60000⟩

theorem c6_all_idle_buffers_empty_witness :
    (Reachable 60000 serializeOk "ts" cexFlushed ∧
      ∀ p ∈ cexFlushed.deviceActivity, p.2 = false) ∧
    ∀ q ∈ cexFlushed.recordedEvents, q.2 = [] := by
  have hreach : Reachable 60000 serializeOk "ts" cexFlushed := by
    refine Reachable.step cexS1_reachable ?_
    refine RStep.fire cexS1 ⟨0, "A", 0 + 60000⟩ ?_ ?_ ?_
    · rw [cexS1_pending]
      exact List.mem_cons_self _ _
    · rw [cexS1_now]
      norm_num
    · intro q hq
      rw [cexS1_pending] at hq
      rcases List.mem_singleton.mp hq with rfl
      norm_num
  have hidle : ∀ p ∈ cexFlushed.deviceActivity, p.2 = false := by decide
  exact ⟨⟨hreach, hidle⟩,
    c6_all_idle_buffers_empty 60000 serializeOk "ts" cexFlushed hreach hidle⟩

end JamScribe

namespace JamScribe

/-! ### Timer bookkeeping invariant (C9) -/

/-- The pending inactivity timers watching device `d`. -/
def timersFor (s : RecorderState) (d : String) : List TimerRec :=
  s.pendingTimers.filter (fun tm => decide (tm.device = d))

/-- Auxiliary invariant: every pending timer's handle is the one stored for
its device, handles are below the fresh counter, and handles are distinct. -/
def TimerInv (s : RecorderState) : Prop :=
  (∀ tm ∈ s.pendingTimers, getObj s.deviceTimeouts tm.device = some tm.id) ∧
  (∀ tm ∈ s.pendingTimers, tm.id < s.nextId) ∧
  (s.pendingTimers.map TimerRec.id).Nodup

theorem timerInv_initial : TimerInv initialState := by
  refine ⟨?_, ?_, ?_⟩ <;> simp [initialState]

theorem timerInv_handleMidiEvent (limitMs : ℚ) (s : RecorderState) (deviceName : String)
    (e : MEvent) (t : ℚ) (hinv : TimerInv s) :
    TimerInv (handleMidiEvent limitMs s deviceName e t) := by
  obtain ⟨h1, h2, h3⟩ := hinv
  simp only [handleMidiEvent, resetDeviceInactivityTimerForDevice]
  set pending1 := match getObj s.deviceTimeouts deviceName with
    | some h => clearTimeoutBy s.pendingTimers h
    | none => s.pendingTimers with hpending1
  have hsub : pending1.Sublist s.pendingTimers := by
    rw [hpending1]
    cases getObj s.deviceTimeouts deviceName
    · exact List.Sublist.refl _
    · exact List.filter_sublist _
  have hmem1 : ∀ tm ∈ pending1, tm ∈ s.pendingTimers := fun tm htm => hsub.mem htm
  have hdev1 : ∀ tm ∈ pending1, tm.device ≠ deviceName := by
    intro tm htm hc
    have hreg := h1 tm (hmem1 tm htm)
    rw [hc] at hreg
    have htm2 : tm ∈ clearTimeoutBy s.pendingTimers tm.id := by
      rw [hpending1, hreg] at htm
      exact htm
    simp only [clearTimeoutBy] at htm2
    exact of_decide_eq_true (List.mem_filter.mp htm2).2 rfl
  refine ⟨?_, ?_, ?_⟩
  · intro tm htm
    rcases List.mem_append.mp htm with htm | htm
    · rw [getObj_updObj_ne s.deviceTimeouts deviceName tm.device s.nextId
        (hdev1 tm htm)]
      exact h1 tm (hmem1 tm htm)
    · rcases List.mem_singleton.mp htm with rfl
      exact getObj_updObj_self s.deviceTimeouts deviceName s.nextId
  · intro tm htm
    rcases List.mem_append.mp htm with htm | htm
    · exact Nat.lt_succ_of_lt (h2 tm (hmem1 tm htm))
    · rcases List.mem_singleton.mp htm with rfl
      exact Nat.lt_succ_self _
  · rw [List.map_append]
    rw [List.nodup_append]
    refine ⟨(hsub.map TimerRec.id).nodup h3, by simp, ?_⟩
    intro i hi hi2
    simp only [List.map_cons, List.map_nil, List.mem_singleton] at hi2
    subst hi2
    rcases List.mem_map.mp hi with ⟨tm, htm, htmid⟩
    have := h2 tm (hmem1 tm htm)
    omega

theorem timerInv_fireTimer (serialize : List MidiTrackEvent → Except String (List Nat))
    (timestamp : String) (s : RecorderState) (tm : TimerRec) (hinv : TimerInv s) :
    TimerInv (fireTimer serialize timestamp s tm) := by
  obtain ⟨h1, h2, h3⟩ := hinv
  simp only [fireTimer]
  have hsub : (s.pendingTimers.filter (fun q => decide (q.id ≠ tm.id))).Sublist
      s.pendingTimers := List.filter_sublist _
  split
  all_goals
    refine ⟨?_, ?_, ?_⟩
    · intro q hq
      exact h1 q (hsub.mem hq)
    · intro q hq
      exact h2 q (hsub.mem hq)
    · exact (hsub.map TimerRec.id).nodup h3

theorem timerInv_reachable (limitMs : ℚ)
    (serialize : List MidiTrackEvent → Except String (List Nat)) (timestamp : String)
    (s : RecorderState) (hreach : Reachable limitMs serialize timestamp s) :
    TimerInv s := by
  induction hreach with
  | init => exact timerInv_initial
  | step hprev hstep ih =>
    cases hstep with
    | event deviceName e t hnow hdue => exact timerInv_handleMidiEvent _ _ _ _ _ ih
    | fire tm hmem hnow hmin => exact timerInv_fireTimer _ _ _ _ ih

theorem length_le_one_of_const {α β : Type} (l : List α) (f : α → β) (c : β)
    (hnd : (l.map f).Nodup) (hc : ∀ a ∈ l, f a = c) : l.length ≤ 1 := by
  match l with
  | [] => simp
  | [a] => simp
  | a :: b :: t =>
    exfalso
    rw [List.map_cons, List.map_cons, List.nodup_cons] at hnd
    refine hnd.1 ?_
    rw [hc a (List.mem_cons_self _ _),
      ← hc b (List.mem_cons_of_mem _ (List.mem_cons_self _ _))]
    exact List.mem_cons_self _ _

theorem timersFor_length_le_one (s : RecorderState) (hinv : TimerInv s) (d : String) :
    (timersFor s d).length ≤ 1 := by
  obtain ⟨h1, _, h3⟩ := hinv
  cases hobj : getObj s.deviceTimeouts d with
  | none =>
    cases hfor : timersFor s d with
    | nil => simp
    | cons q t =>
      exfalso
      have hq : q ∈ timersFor s d := by rw [hfor]; exact List.mem_cons_self _ _
      simp only [timersFor] at hq
      have hqm := List.mem_filter.mp hq
      have hqd : q.device = d := of_decide_eq_true hqm.2
      have := h1 q hqm.1
      rw [hqd, hobj] at this
      exact Option.noConfusion this
  | some i =>
    refine length_le_one_of_const (timersFor s d) TimerRec.id i
      (((List.filter_sublist _).map TimerRec.id).nodup h3) ?_
    intro q hq
    simp only [timersFor] at hq
    have hqm := List.mem_filter.mp hq
    have hqd : q.device = d := of_decide_eq_true hqm.2
    have := h1 q hqm.1
    rw [hqd, hobj] at this
    exact (Option.some.injEq _ _ ▸ this).symm

theorem timersFor_handleMidiEvent_ge_one (limitMs : ℚ) (s : RecorderState)
    (deviceName : String) (e : MEvent) (t : ℚ) :
    1 ≤ (timersFor (handleMidiEvent limitMs s deviceName e t) deviceName).length := by
  have hmem : (⟨s.nextId, deviceName, t + limitMs⟩ : TimerRec) ∈
      timersFor (handleMidiEvent limitMs s deviceName e t) deviceName := by
    refine List.mem_filter.mpr ⟨?_, by simp⟩
    simp only [handleMidiEvent, resetDeviceInactivityTimerForDevice]
    exact List.mem_append_right _ (List.mem_cons_self _ _)
  exact List.length_pos.mpr (fun hc => by simp [hc] at hmem)

/-- C9: in every reachable recorder state each device has at most one live
inactivity timer, and handling a new event for a device supersedes its
previous timer, leaving exactly one live timer for that device — so N
resets within the window leave a single timer and hence a single eventual
fire, not N. -/
theorem c9_single_timer_per_device (limitMs : ℚ)
    (serialize : List MidiTrackEvent → Except String (List Nat)) (timestamp : String)
    (s : RecorderState) (hreach : Reachable limitMs serialize timestamp s) :
    (∀ d, (timersFor s d).length ≤ 1) ∧
    (∀ deviceName e t,
      (timersFor (handleMidiEvent limitMs s deviceName e t) deviceName).length = 1) := by
  have hinv : TimerInv s := timerInv_reachable limitMs serialize timestamp s hreach
  refine ⟨fun d => timersFor_length_le_one s hinv d, fun deviceName e t => ?_⟩
  have hle : (timersFor (handleMidiEvent limitMs s deviceName e t) deviceName).length ≤ 1 :=
    timersFor_length_le_one _ (timerInv_handleMidiEvent limitMs s deviceName e t hinv)
      deviceName
  have hge := timersFor_handleMidiEvent_ge_one limitMs s deviceName e t
  omega

/-- Witness for C9 at the reachable two-device state `cexS2`. -/
theorem c9_single_timer_per_device_witness :
    Reachable 60000 serializeOk "ts" cexS2 ∧
    ((∀ d, (timersFor cexS2 d).length ≤ 1) ∧
      (∀ deviceName e t,
        (timersFor (handleMidiEvent 60000 cexS2 deviceName e t) deviceName).length = 1)) :=
  ⟨cexS2_reachable,
    c9_single_timer_per_device 60000 serializeOk "ts" cexS2 cexS2_reachable⟩

end JamScribe
